import Mathlib

/-!
Verification of the nested fidget-spinner particle simulation
(`isolated.py`, with the `light.py` and `sound.py` variants).

The simulation state is embedded shallowly:

* Python floats become real numbers (`ℝ`);
* the global `random.random()` stream becomes an explicit stream
  `ρ : ℕ → ℝ` together with a counter that is threaded through every
  call in the order the source consumes draws;
* `Particle.update` returns `Option Particle`: `none` models the
  `ZeroDivisionError` Python would raise on `dx / dist` when
  `dist == 0` inside the reflection branch;
* the recursive `SpinnerNode` tree becomes an inductive type whose
  children (present iff `level < max_level` at construction time) are
  indexed by lobe `i : Fin 3` and position `j : Fin 3`.

Audio playback is a side effect with no influence on simulation state
and consumes no random draws, so `SpinnerNode.update` omits the
`tone.play()` calls; the tone *parameter* computation and the
synthesized stereo waveform of `generate_tone` are modelled separately
as pure functions.
-/

open Real

/-- A particle, as in `Particle.__init__` of `isolated.py`:
position `(x, y)`, velocity `(vx, vy)` and a radius. -/
@[ext]
structure Particle where
  x : ℝ
  y : ℝ
  vx : ℝ
  vy : ℝ
  radius : ℝ

/-- Kinetic energy `0.5*(vx**2 + vy**2)` (`Particle.kinetic_energy`). -/
def Particle.kinetic_energy (p : Particle) : ℝ :=
  0.5 * (p.vx ^ 2 + p.vy ^ 2)

/-- One physics step of a particle (`Particle.update` in `isolated.py`):
advance the position by `velocity * dt`, then bounce off the circular
lobe boundary (reflect the velocity about the outward unit normal and
clamp the position to `lobe_radius - radius` from the center), and
finally add the random velocity fluctuation
`(random.random() - 0.5) * 0.01` to each component, with the two draws
passed in as `u1` and `u2`.  Returns `none` exactly when Python would
raise `ZeroDivisionError`: the reflection branch is entered while
`dist == 0`. -/
noncomputable def Particle.update (p : Particle) (center : ℝ × ℝ)
    (lobe_radius dt u1 u2 : ℝ) : Option Particle :=
  let x1 := p.x + p.vx * dt
  let y1 := p.y + p.vy * dt
  let dx := x1 - center.1
  let dy := y1 - center.2
  let dist := Real.sqrt (dx ^ 2 + dy ^ 2)
  if dist + p.radius > lobe_radius then
    if dist = 0 then
      none
    else
      let nx := dx / dist
      let ny := dy / dist
      let dot := p.vx * nx + p.vy * ny
      some { x := center.1 + nx * (lobe_radius - p.radius)
             y := center.2 + ny * (lobe_radius - p.radius)
             vx := p.vx - 2 * dot * nx + (u1 - 0.5) * 0.01
             vy := p.vy - 2 * dot * ny + (u2 - 0.5) * 0.01
             radius := p.radius }
  else
    some { x := x1, y := y1
           vx := p.vx + (u1 - 0.5) * 0.01
           vy := p.vy + (u2 - 0.5) * 0.01
           radius := p.radius }

/-- Kinetic energy is a nonnegative quantity. -/
lemma Particle.kinetic_energy_nonneg (p : Particle) : 0 ≤ p.kinetic_energy := by
  unfold Particle.kinetic_energy
  positivity

/-- A successful `Particle.update` keeps the particle's radius and, when
that radius fits in the lobe, leaves the particle inside the lobe
boundary: distance from the center plus radius is at most
`lobe_radius`. -/
lemma Particle.update_some_spec {p q : Particle} {c : ℝ × ℝ} {L dt u1 u2 : ℝ}
    (h : p.update c L dt u1 u2 = some q) :
    q.radius = p.radius ∧
      (p.radius ≤ L →
        Real.sqrt ((q.x - c.1) ^ 2 + (q.y - c.2) ^ 2) + q.radius ≤ L) := by
  classical
  unfold Particle.update at h
  set dx := p.x + p.vx * dt - c.1 with hdx
  set dy := p.y + p.vy * dt - c.2 with hdy
  set dist := Real.sqrt (dx ^ 2 + dy ^ 2) with hdist
  by_cases hb : dist + p.radius > L
  · rw [if_pos hb] at h
    by_cases h0 : dist = 0
    · rw [if_pos h0] at h
      exact absurd h (by simp)
    · rw [if_neg h0] at h
      simp only [Option.some.injEq] at h
      subst h
      refine ⟨rfl, fun hrL => ?_⟩
      have hsq : dist ^ 2 = dx ^ 2 + dy ^ 2 := Real.sq_sqrt (by positivity)
      have hxx : c.1 + dx / dist * (L - p.radius) - c.1 = dx / dist * (L - p.radius) := by
        ring
      have hyy : c.2 + dy / dist * (L - p.radius) - c.2 = dy / dist * (L - p.radius) := by
        ring
      simp only [hxx, hyy]
      have hval : (dx / dist * (L - p.radius)) ^ 2 + (dy / dist * (L - p.radius)) ^ 2
          = (L - p.radius) ^ 2 := by
        field_simp
        rw [hsq]
        ring
      rw [hval, Real.sqrt_sq (by linarith)]
      linarith
  · rw [if_neg hb] at h
    simp only [Option.some.injEq] at h
    subst h
    refine ⟨rfl, fun _ => ?_⟩
    push_neg at hb
    simpa [← hdx, ← hdy, ← hdist] using hb

/-- The scalar fields of a `SpinnerNode` (`SpinnerNode.__init__`):
recursion level, center, arm length, lobe radius, rotation angle
`theta`, the three per-lobe particle groups, and the stored
`max_level`. -/
@[ext]
structure NodeData where
  level : ℕ
  center : ℝ × ℝ
  armLength : ℝ
  lobeRadius : ℝ
  theta : ℝ
  particles : Fin 3 → List Particle
  maxLevel : ℕ

/-- A `SpinnerNode`.  `self.children` is `None` at a leaf
(`level == max_level`) and otherwise a 3 x 3 grid: lobe index `i`,
child index `j` within that lobe. -/
inductive SpinnerNode : Type where
  | leaf (d : NodeData)
  | branch (d : NodeData) (children : Fin 3 → Fin 3 → SpinnerNode)

namespace SpinnerNode

/-- The node's own scalar data. -/
def data : SpinnerNode → NodeData
  | leaf d => d
  | branch d _ => d

end SpinnerNode

/-- Lobe center geometry (`SpinnerNode.get_lobe_center`), from an
explicit center, arm length and angle:
`angle = idx*2*pi/3 + theta`, center plus
`(cos(angle), sin(angle)) * arm_length`. -/
noncomputable def lobeCenterAt (center : ℝ × ℝ) (armLength theta : ℝ)
    (idx : Fin 3) : ℝ × ℝ :=
  let angle := (idx : ℕ) * 2 * Real.pi / 3 + theta
  (center.1 + Real.cos angle * armLength, center.2 + Real.sin angle * armLength)

/-- `SpinnerNode.get_lobe_center` on a node's data. -/
noncomputable def get_lobe_center (d : NodeData) (idx : Fin 3) : ℝ × ℝ :=
  lobeCenterAt d.center d.armLength d.theta idx

/-- The demon's action on one particle of a lobe whose center has
x-coordinate `lcx` (body of the loop in `SpinnerNode.maxwells_demon`):
`dx = p.x - lc[0]`; a particle of kinetic energy above `0.05` is put at
`lc[0] + abs(dx)`, any other at `lc[0] - abs(dx)`. -/
noncomputable def demonParticle (lcx : ℝ) (p : Particle) : Particle :=
  let dx := p.x - lcx
  if p.kinetic_energy > 0.05 then
    { p with x := lcx + |dx| }
  else
    { p with x := lcx - |dx| }

/-- The demon pass over one node's own three particle groups. -/
noncomputable def demonData (d : NodeData) : NodeData :=
  { d with particles := fun i =>
      (d.particles i).map (demonParticle (get_lobe_center d i).1) }

namespace SpinnerNode

/-- `SpinnerNode.maxwells_demon`: sort this node's own three particle
groups, then recurse into every child. -/
noncomputable def maxwells_demon : SpinnerNode → SpinnerNode
  | leaf d => leaf (demonData d)
  | branch d c => branch (demonData d) (fun i j => (c i j).maxwells_demon)

end SpinnerNode

/-- In-place center assignment (`child.center = lc`) combined with the
`theta` advance at the start of `SpinnerNode.update`:
`theta += dt * (1 + level * 0.3)`. -/
def stepData (d : NodeData) (ctr : ℝ × ℝ) (dt : ℝ) : NodeData :=
  { d with center := ctr, theta := d.theta + dt * (1 + (d.level : ℝ) * 0.3) }

/-- The per-lobe particle loop of `SpinnerNode.update`: update each
particle in order against lobe center `c` and radius `L`, every
particle consuming the next two draws `ρ k`, `ρ (k+1)` of the random
stream.  Fails (`none`) as soon as one `Particle.update` fails. -/
noncomputable def updateParticles (c : ℝ × ℝ) (L dt : ℝ) (ρ : ℕ → ℝ) :
    List Particle → ℕ → Option (List Particle × ℕ)
  | [], k => some ([], k)
  | p :: ps, k =>
    match p.update c L dt (ρ k) (ρ (k + 1)) with
    | none => none
    | some q =>
      match updateParticles c L dt ρ ps (k + 2) with
      | none => none
      | some (qs, k') => some (q :: qs, k')

namespace SpinnerNode

/-- `SpinnerNode.update(dt)` for a node whose `center` was just
re-assigned to `ctr` by its parent (for a root, `ctr` is its own
unchanged center).  Steps `theta`, updates the three particle groups
lobe by lobe, recurses into the children of each lobe with that lobe's
freshly computed center, and finally applies `maxwells_demon` to the
whole subtree, exactly as the source does.  The random-stream counter
is threaded in source order. -/
noncomputable def updateC (dt : ℝ) (ρ : ℕ → ℝ) :
    SpinnerNode → (ℝ × ℝ) → ℕ → Option (SpinnerNode × ℕ)
  | leaf d, ctr, k =>
    let d1 := stepData d ctr dt
    match updateParticles (get_lobe_center d1 0) d1.lobeRadius dt ρ (d1.particles 0) k with
    | none => none
    | some (ps0, k0) =>
      match updateParticles (get_lobe_center d1 1) d1.lobeRadius dt ρ (d1.particles 1) k0 with
      | none => none
      | some (ps1, k1) =>
        match updateParticles (get_lobe_center d1 2) d1.lobeRadius dt ρ (d1.particles 2) k1 with
        | none => none
        | some (ps2, k2) =>
          some ((leaf { d1 with particles := ![ps0, ps1, ps2] }).maxwells_demon, k2)
  | branch d c, ctr, k =>
    let d1 := stepData d ctr dt
    match updateParticles (get_lobe_center d1 0) d1.lobeRadius dt ρ (d1.particles 0) k with
    | none => none
    | some (ps0, k0) =>
      match updateParticles (get_lobe_center d1 1) d1.lobeRadius dt ρ (d1.particles 1) k0 with
      | none => none
      | some (ps1, k1) =>
        match updateParticles (get_lobe_center d1 2) d1.lobeRadius dt ρ (d1.particles 2) k1 with
        | none => none
        | some (ps2, k2) =>
          match updateC dt ρ (c 0 0) (get_lobe_center d1 0) k2 with
          | none => none
          | some (c00, k3) =>
            match updateC dt ρ (c 0 1) (get_lobe_center d1 0) k3 with
            | none => none
            | some (c01, k4) =>
              match updateC dt ρ (c 0 2) (get_lobe_center d1 0) k4 with
              | none => none
              | some (c02, k5) =>
                match updateC dt ρ (c 1 0) (get_lobe_center d1 1) k5 with
                | none => none
                | some (c10, k6) =>
                  match updateC dt ρ (c 1 1) (get_lobe_center d1 1) k6 with
                  | none => none
                  | some (c11, k7) =>
                    match updateC dt ρ (c 1 2) (get_lobe_center d1 1) k7 with
                    | none => none
                    | some (c12, k8) =>
                      match updateC dt ρ (c 2 0) (get_lobe_center d1 2) k8 with
                      | none => none
                      | some (c20, k9) =>
                        match updateC dt ρ (c 2 1) (get_lobe_center d1 2) k9 with
                        | none => none
                        | some (c21, k10) =>
                          match updateC dt ρ (c 2 2) (get_lobe_center d1 2) k10 with
                          | none => none
                          | some (c22, k11) =>
                            some ((branch { d1 with particles := ![ps0, ps1, ps2] }
                              ![![c00, c01, c02], ![c10, c11, c12], ![c20, c21, c22]]).maxwells_demon,
                              k11)

/-- `SpinnerNode.update(dt)` as the main loop calls it: the node's own
center is left as it is. -/
noncomputable def update (dt : ℝ) (ρ : ℕ → ℝ) (t : SpinnerNode) (k : ℕ) :
    Option (SpinnerNode × ℕ) :=
  updateC dt ρ t t.data.center k

/-- `SpinnerNode.total_energy`: own particle energies plus the
children's totals. -/
noncomputable def total_energy : SpinnerNode → ℝ
  | leaf d => ∑ i : Fin 3, ((d.particles i).map Particle.kinetic_energy).sum
  | branch d c =>
      (∑ i : Fin 3, ((d.particles i).map Particle.kinetic_energy).sum) +
        ∑ i : Fin 3, ∑ j : Fin 3, (c i j).total_energy

/-- `SpinnerNode.total_particles`: own particle counts plus the
children's totals. -/
def total_particles : SpinnerNode → ℕ
  | leaf d => ∑ i : Fin 3, (d.particles i).length
  | branch d c =>
      (∑ i : Fin 3, (d.particles i).length) +
        ∑ i : Fin 3, ∑ j : Fin 3, (c i j).total_particles

/-- Number of nodes of the tree. -/
def nodeCount : SpinnerNode → ℕ
  | leaf _ => 1
  | branch _ c => 1 + ∑ i : Fin 3, ∑ j : Fin 3, (c i j).nodeCount

/-- All particles of the node and its descendants, in lobe-major,
node-before-children order. -/
def allParticles : SpinnerNode → List Particle
  | leaf d => d.particles 0 ++ d.particles 1 ++ d.particles 2
  | branch d c =>
      d.particles 0 ++ d.particles 1 ++ d.particles 2 ++
      (c 0 0).allParticles ++ (c 0 1).allParticles ++ (c 0 2).allParticles ++
      (c 1 0).allParticles ++ (c 1 1).allParticles ++ (c 1 2).allParticles ++
      (c 2 0).allParticles ++ (c 2 1).allParticles ++ (c 2 2).allParticles

end SpinnerNode

/-- Iterated ticks: `n` successive `SpinnerNode.update(dt)` calls,
threading the tree and the random-stream counter. -/
noncomputable def iterateUpdate (dt : ℝ) (ρ : ℕ → ℝ) :
    ℕ → SpinnerNode → ℕ → Option (SpinnerNode × ℕ)
  | 0, t, k => some (t, k)
  | n + 1, t, k =>
    match t.update dt ρ k with
    | none => none
    | some (t', k') => iterateUpdate dt ρ n t' k'

/-- `SpinnerNode.init_particles`' inner loop for one lobe with center
`lc`: each particle consumes three draws (`angle`, `speed`, `r`) and is
placed at distance `lobe_radius - r` from the lobe center along
`angle`, with velocity `(cos(angle), sin(angle)) * speed`. -/
noncomputable def initParticles (ρ : ℕ → ℝ) (lc : ℝ × ℝ) (lobeRadius : ℝ) :
    ℕ → ℕ → List Particle × ℕ
  | 0, k => ([], k)
  | n + 1, k =>
    let angle := ρ k * (2 * Real.pi)
    let speed := ρ (k + 1) * 0.3
    let r := 2 + ρ (k + 2) * 2
    let p : Particle :=
      { x := lc.1 + Real.cos angle * (lobeRadius - r)
        y := lc.2 + Real.sin angle * (lobeRadius - r)
        vx := Real.cos angle * speed
        vy := Real.sin angle * speed
        radius := r }
    let rest := initParticles ρ lc lobeRadius n (k + 3)
    (p :: rest.1, rest.2)

/-- `SpinnerNode.__init__`: `theta = 0`; if `level < max_level` first
build the nine children (three per lobe, at the lobe's initial
geometry, with arm length and lobe radius shrunk by `0.4`), then
populate the three particle groups with `numParticles` particles each.
The random-stream counter is threaded in source order: children first,
then the lobes `0`, `1`, `2`. -/
noncomputable def build (ρ : ℕ → ℝ) (numParticles : ℕ) (level : ℕ)
    (center : ℝ × ℝ) (armLength lobeRadius : ℝ) (maxLevel : ℕ) (k : ℕ) :
    SpinnerNode × ℕ :=
  if h : level < maxLevel then
    let r00 := build ρ numParticles (level + 1) (lobeCenterAt center armLength 0 0)
      (armLength * 0.4) (lobeRadius * 0.4) maxLevel k
    let r01 := build ρ numParticles (level + 1) (lobeCenterAt center armLength 0 0)
      (armLength * 0.4) (lobeRadius * 0.4) maxLevel r00.2
    let r02 := build ρ numParticles (level + 1) (lobeCenterAt center armLength 0 0)
      (armLength * 0.4) (lobeRadius * 0.4) maxLevel r01.2
    let r10 := build ρ numParticles (level + 1) (lobeCenterAt center armLength 0 1)
      (armLength * 0.4) (lobeRadius * 0.4) maxLevel r02.2
    let r11 := build ρ numParticles (level + 1) (lobeCenterAt center armLength 0 1)
      (armLength * 0.4) (lobeRadius * 0.4) maxLevel r10.2
    let r12 := build ρ numParticles (level + 1) (lobeCenterAt center armLength 0 1)
      (armLength * 0.4) (lobeRadius * 0.4) maxLevel r11.2
    let r20 := build ρ numParticles (level + 1) (lobeCenterAt center armLength 0 2)
      (armLength * 0.4) (lobeRadius * 0.4) maxLevel r12.2
    let r21 := build ρ numParticles (level + 1) (lobeCenterAt center armLength 0 2)
      (armLength * 0.4) (lobeRadius * 0.4) maxLevel r20.2
    let r22 := build ρ numParticles (level + 1) (lobeCenterAt center armLength 0 2)
      (armLength * 0.4) (lobeRadius * 0.4) maxLevel r21.2
    let g0 := initParticles ρ (lobeCenterAt center armLength 0 0) lobeRadius numParticles r22.2
    let g1 := initParticles ρ (lobeCenterAt center armLength 0 1) lobeRadius numParticles g0.2
    let g2 := initParticles ρ (lobeCenterAt center armLength 0 2) lobeRadius numParticles g1.2
    (SpinnerNode.branch
      { level := level, center := center, armLength := armLength
        lobeRadius := lobeRadius, theta := 0
        particles := ![g0.1, g1.1, g2.1], maxLevel := maxLevel }
      ![![r00.1, r01.1, r02.1], ![r10.1, r11.1, r12.1], ![r20.1, r21.1, r22.1]],
     g2.2)
  else
    let g0 := initParticles ρ (lobeCenterAt center armLength 0 0) lobeRadius numParticles k
    let g1 := initParticles ρ (lobeCenterAt center armLength 0 1) lobeRadius numParticles g0.2
    let g2 := initParticles ρ (lobeCenterAt center armLength 0 2) lobeRadius numParticles g1.2
    (SpinnerNode.leaf
      { level := level, center := center, armLength := armLength
        lobeRadius := lobeRadius, theta := 0
        particles := ![g0.1, g1.1, g2.1], maxLevel := maxLevel },
     g2.2)
termination_by maxLevel - level
decreasing_by all_goals omega

namespace SpinnerNode

/-- How many nodes have their own particle groups demon-sorted by one
`maxwells_demon` call on this tree: the call sorts the node's own three
groups once and recurses into every child, so this is the subtree's
node count.  It depends only on the tree's shape. -/
def demonApps : SpinnerNode → ℕ
  | leaf _ => 1
  | branch _ c => 1 + ∑ i : Fin 3, ∑ j : Fin 3, (c i j).demonApps

/-- How many times particle groups are demon-sorted during one
`SpinnerNode.update(dt)` call on this tree, following the traversal of
`updateC`: every child's own `update` runs first (recursively), and the
node then calls `maxwells_demon`, which re-sorts the entire subtree.
Only the tree's shape matters (and `updateC` preserves shape). -/
def updateDemonApps : SpinnerNode → ℕ
  | leaf d => (leaf d).demonApps
  | branch d c =>
      (∑ i : Fin 3, ∑ j : Fin 3, (c i j).updateDemonApps) + (branch d c).demonApps

/-- Total of `depth + 1` over all nodes of the tree, where `depth` is
the node's depth below the given root (the root itself at `depth`).
This is the per-tick number of demon sorts a recursive final
`maxwells_demon` produces: a node at depth `d` is re-sorted by itself
and by each of its `d` ancestors. -/
def weightedApps (depth : ℕ) : SpinnerNode → ℕ
  | leaf _ => depth + 1
  | branch _ c => (depth + 1) + ∑ i : Fin 3, ∑ j : Fin 3, (c i j).weightedApps (depth + 1)

end SpinnerNode

/-- Containment of one node's own particles: each particle of lobe `i`
lies within `lobe_radius` of the lobe's current center, accounting for
its radius. -/
noncomputable def contained (d : NodeData) : Prop :=
  ∀ i : Fin 3, ∀ p ∈ d.particles i,
    Real.sqrt ((p.x - (get_lobe_center d i).1) ^ 2 +
      (p.y - (get_lobe_center d i).2) ^ 2) + p.radius ≤ d.lobeRadius

namespace SpinnerNode

/-- Containment for every node of the tree. -/
noncomputable def inv : SpinnerNode → Prop
  | leaf d => contained d
  | branch d c => contained d ∧ ∀ i j, (c i j).inv

/-- Every particle's radius fits inside its node's lobe radius,
tree-wide.  The constructor guarantees this for the source constants
(`r < 4`, `lobe_radius ≥ 110 * 0.4 ^ max_level`). -/
def radOK : SpinnerNode → Prop
  | leaf d => ∀ i : Fin 3, ∀ p ∈ d.particles i, p.radius ≤ d.lobeRadius
  | branch d c =>
      (∀ i : Fin 3, ∀ p ∈ d.particles i, p.radius ≤ d.lobeRadius) ∧
        ∀ i j, (c i j).radOK

end SpinnerNode

/-- What a demon pass may change about one particle of a lobe whose
center is `lc`: only the x-coordinate moves, and only by reflecting it
about the center, so `y`, the velocity, the radius, the kinetic energy,
`|x - lc.x|` and the distance to `lc` are all preserved. -/
noncomputable def pFrame (lc : ℝ × ℝ) (p q : Particle) : Prop :=
  q.y = p.y ∧ q.vx = p.vx ∧ q.vy = p.vy ∧ q.radius = p.radius ∧
    |q.x - lc.1| = |p.x - lc.1| ∧
    q.kinetic_energy = p.kinetic_energy ∧
    Real.sqrt ((q.x - lc.1) ^ 2 + (q.y - lc.2) ^ 2) =
      Real.sqrt ((p.x - lc.1) ^ 2 + (p.y - lc.2) ^ 2)

/-- Frame relation between a node's data and its demon-sorted data: all
scalar fields agree, and the particle groups are related pointwise by
`pFrame` at the lobe's current center. -/
noncomputable def dataFrame (d d' : NodeData) : Prop :=
  d'.level = d.level ∧ d'.center = d.center ∧ d'.armLength = d.armLength ∧
    d'.lobeRadius = d.lobeRadius ∧ d'.theta = d.theta ∧ d'.maxLevel = d.maxLevel ∧
    ∀ i : Fin 3, List.Forall₂ (pFrame (get_lobe_center d i)) (d.particles i) (d'.particles i)

namespace SpinnerNode

/-- Frame relation between a tree and its demon-sorted image:
`dataFrame` at every node. -/
noncomputable def demonFrame : SpinnerNode → SpinnerNode → Prop
  | leaf d, leaf d' => dataFrame d d'
  | branch d c, branch d' c' => dataFrame d d' ∧ ∀ i j, demonFrame (c i j) (c' i j)
  | _, _ => False

end SpinnerNode

/-- `BASE_FREQUENCIES = [220, 330, 440]`. -/
noncomputable def BASE_FREQUENCIES : Fin 3 → ℝ := ![220, 330, 440]

/-- `SAMPLE_RATE = 44100`. -/
def SAMPLE_RATE : ℕ := 44100

/-- `DURATION = 0.05` seconds. -/
noncomputable def duration : ℝ := 0.05

/-- `n_samples = int(SAMPLE_RATE * DURATION)` (= 2205 exactly). -/
def n_samples : ℕ := 2205

/-- The `i`-th time point of `np.linspace(0, DURATION, n_samples,
False)`: `i * DURATION / n_samples`. -/
noncomputable def sampleTime (i : ℕ) : ℝ := i * duration / n_samples

/-- The mono waveform of `generate_tone` at time `t`:
`sin(2*pi*frequency*t) * volume`. -/
noncomputable def mono_wave (frequency volume t : ℝ) : ℝ :=
  Real.sin (2 * Real.pi * frequency * t) * volume

/-- `generate_tone(frequency, volume, pan)` up to the final int16
quantization for the audio device: the stereo waveform as the list of
`(left, right)` sample pairs, with `left = waveform * (1 - pan)` and
`right = waveform * pan` (`np.column_stack((left, right))`). -/
noncomputable def generate_tone (frequency volume pan : ℝ) : List (ℝ × ℝ) :=
  (List.range n_samples).map fun i =>
    let w := mono_wave frequency volume (sampleTime i)
    (w * (1 - pan), w * pan)

/-- The tone parameters computed per particle in `SpinnerNode.update`:
`freq = BASE_FREQUENCIES[lobe_idx] + kinetic_energy * 300`,
`vol = min(1.0, kinetic_energy * 8)`, `pan = lobe_idx / 2`. -/
noncomputable def toneParams (lobe_idx : Fin 3) (p : Particle) : ℝ × ℝ × ℝ :=
  (BASE_FREQUENCIES lobe_idx + p.kinetic_energy * 300,
   min 1 (p.kinetic_energy * 8),
   (lobe_idx : ℕ) / 2)

/-! ### Lemmas about the demon pass -/

lemma demonParticle_x_hot {p : Particle} (lcx : ℝ) (h : p.kinetic_energy > 0.05) :
    (demonParticle lcx p).x = lcx + |p.x - lcx| := by
  unfold demonParticle; rw [if_pos h]

lemma demonParticle_x_cold {p : Particle} (lcx : ℝ) (h : ¬ p.kinetic_energy > 0.05) :
    (demonParticle lcx p).x = lcx - |p.x - lcx| := by
  unfold demonParticle; rw [if_neg h]

lemma demonParticle_y (lcx : ℝ) (p : Particle) : (demonParticle lcx p).y = p.y := by
  unfold demonParticle; split <;> rfl

lemma demonParticle_vx (lcx : ℝ) (p : Particle) : (demonParticle lcx p).vx = p.vx := by
  unfold demonParticle; split <;> rfl

lemma demonParticle_vy (lcx : ℝ) (p : Particle) : (demonParticle lcx p).vy = p.vy := by
  unfold demonParticle; split <;> rfl

lemma demonParticle_radius (lcx : ℝ) (p : Particle) :
    (demonParticle lcx p).radius = p.radius := by
  unfold demonParticle; split <;> rfl

lemma demonParticle_ke (lcx : ℝ) (p : Particle) :
    (demonParticle lcx p).kinetic_energy = p.kinetic_energy := by
  unfold demonParticle; split <;> rfl

lemma demonParticle_abs (lcx : ℝ) (p : Particle) :
    |(demonParticle lcx p).x - lcx| = |p.x - lcx| := by
  by_cases h : p.kinetic_energy > 0.05
  · rw [demonParticle_x_hot lcx h, show lcx + |p.x - lcx| - lcx = |p.x - lcx| by ring,
      abs_abs]
  · rw [demonParticle_x_cold lcx h, show lcx - |p.x - lcx| - lcx = -|p.x - lcx| by ring,
      abs_neg, abs_abs]

lemma demonParticle_sq (lcx : ℝ) (p : Particle) :
    ((demonParticle lcx p).x - lcx) ^ 2 = (p.x - lcx) ^ 2 := by
  rw [← sq_abs, demonParticle_abs, sq_abs]

lemma demonParticle_idem (lcx : ℝ) (p : Particle) :
    demonParticle lcx (demonParticle lcx p) = demonParticle lcx p := by
  by_cases h : p.kinetic_energy > 0.05
  · have h2 : (demonParticle lcx p).kinetic_energy > 0.05 := by
      rw [demonParticle_ke]; exact h
    ext
    · rw [demonParticle_x_hot lcx h2, demonParticle_abs, demonParticle_x_hot lcx h]
    · exact demonParticle_y _ _
    · exact demonParticle_vx _ _
    · exact demonParticle_vy _ _
    · exact demonParticle_radius _ _
  · have h2 : ¬ (demonParticle lcx p).kinetic_energy > 0.05 := by
      rw [demonParticle_ke]; exact h
    ext
    · rw [demonParticle_x_cold lcx h2, demonParticle_abs, demonParticle_x_cold lcx h]
    · exact demonParticle_y _ _
    · exact demonParticle_vx _ _
    · exact demonParticle_vy _ _
    · exact demonParticle_radius _ _

lemma get_lobe_center_demonData (d : NodeData) (i : Fin 3) :
    get_lobe_center (demonData d) i = get_lobe_center d i := rfl

lemma demonData_particles (d : NodeData) (i : Fin 3) :
    (demonData d).particles i =
      (d.particles i).map (demonParticle (get_lobe_center d i).1) := rfl

lemma demonData_idem (d : NodeData) : demonData (demonData d) = demonData d := by
  unfold demonData
  ext1 <;> try rfl
  funext i
  simp only [List.map_map]
  exact List.map_congr_left fun p _ => demonParticle_idem _ p

lemma contained_demonData {d : NodeData} (h : contained d) : contained (demonData d) := by
  intro i q hq
  rw [demonData_particles] at hq
  obtain ⟨p, hp, rfl⟩ := List.mem_map.1 hq
  have := h i p hp
  calc Real.sqrt (((demonParticle (get_lobe_center d i).1 p).x -
          (get_lobe_center (demonData d) i).1) ^ 2 +
        ((demonParticle (get_lobe_center d i).1 p).y -
          (get_lobe_center (demonData d) i).2) ^ 2) +
        (demonParticle (get_lobe_center d i).1 p).radius
      = Real.sqrt ((p.x - (get_lobe_center d i).1) ^ 2 +
          (p.y - (get_lobe_center d i).2) ^ 2) + p.radius := by
        rw [get_lobe_center_demonData, demonParticle_sq, demonParticle_y,
          demonParticle_radius]
    _ ≤ d.lobeRadius := this

lemma radOK_data_demonData {d : NodeData}
    (h : ∀ i : Fin 3, ∀ p ∈ d.particles i, p.radius ≤ d.lobeRadius) :
    ∀ i : Fin 3, ∀ p ∈ (demonData d).particles i, p.radius ≤ (demonData d).lobeRadius := by
  intro i q hq
  rw [demonData_particles] at hq
  obtain ⟨p, hp, rfl⟩ := List.mem_map.1 hq
  rw [demonParticle_radius]
  exact h i p hp

namespace SpinnerNode

lemma maxwells_demon_inv {t : SpinnerNode} (h : t.inv) : t.maxwells_demon.inv := by
  induction t with
  | leaf d => exact contained_demonData h
  | branch d c ih =>
    exact ⟨contained_demonData h.1, fun i j => ih i j (h.2 i j)⟩

lemma maxwells_demon_radOK {t : SpinnerNode} (h : t.radOK) : t.maxwells_demon.radOK := by
  induction t with
  | leaf d => exact radOK_data_demonData h
  | branch d c ih =>
    exact ⟨radOK_data_demonData h.1, fun i j => ih i j (h.2 i j)⟩

lemma maxwells_demon_total_particles (t : SpinnerNode) :
    t.maxwells_demon.total_particles = t.total_particles := by
  induction t with
  | leaf d => simp [maxwells_demon, total_particles, demonData_particles]
  | branch d c ih =>
    simp [maxwells_demon, total_particles, demonData_particles, ih]

lemma maxwells_demon_nodeCount (t : SpinnerNode) :
    t.maxwells_demon.nodeCount = t.nodeCount := by
  induction t with
  | leaf d => rfl
  | branch d c ih => simp [maxwells_demon, nodeCount, ih]

lemma maxwells_demon_total_energy (t : SpinnerNode) :
    t.maxwells_demon.total_energy = t.total_energy := by
  induction t with
  | leaf d =>
    simp only [maxwells_demon, total_energy, demonData_particles, List.map_map]
    congr 1
    funext i
    congr 1
    exact List.map_congr_left fun p _ => demonParticle_ke _ p
  | branch d c ih =>
    simp only [maxwells_demon, total_energy, demonData_particles, List.map_map]
    congr 1
    · congr 1
      funext i
      congr 1
      exact List.map_congr_left fun p _ => demonParticle_ke _ p
    · simp [ih]

end SpinnerNode

lemma pFrame_demonParticle (lc : ℝ × ℝ) (p : Particle) :
    pFrame lc p (demonParticle lc.1 p) := by
  refine ⟨demonParticle_y _ _, demonParticle_vx _ _, demonParticle_vy _ _,
    demonParticle_radius _ _, demonParticle_abs _ _, demonParticle_ke _ _, ?_⟩
  rw [demonParticle_sq, demonParticle_y]

lemma dataFrame_demonData (d : NodeData) : dataFrame d (demonData d) := by
  refine ⟨rfl, rfl, rfl, rfl, rfl, rfl, fun i => ?_⟩
  rw [demonData_particles, List.forall₂_map_right_iff]
  exact List.forall₂_same.2 fun p _ => pFrame_demonParticle _ p

namespace SpinnerNode

lemma demonFrame_maxwells_demon (t : SpinnerNode) : demonFrame t t.maxwells_demon := by
  induction t with
  | leaf d => exact dataFrame_demonData d
  | branch d c ih => exact ⟨dataFrame_demonData d, fun i j => ih i j⟩

lemma maxwells_demon_idem (t : SpinnerNode) :
    t.maxwells_demon.maxwells_demon = t.maxwells_demon := by
  induction t with
  | leaf d =>
    show leaf (demonData (demonData d)) = leaf (demonData d)
    rw [demonData_idem]
  | branch d c ih =>
    show branch (demonData (demonData d)) _ = branch (demonData d) _
    rw [demonData_idem]
    congr 1
    funext i j
    exact ih i j

end SpinnerNode

/-! ### Lemmas about the particle loop of `update` -/

lemma updateParticles_some_spec (c : ℝ × ℝ) (L dt : ℝ) (ρ : ℕ → ℝ) :
    ∀ (ps : List Particle) (k : ℕ) (ps' : List Particle) (k' : ℕ),
      updateParticles c L dt ρ ps k = some (ps', k') →
      ps'.length = ps.length ∧
        ∀ q ∈ ps', ∃ p ∈ ps, ∃ u1 u2, p.update c L dt u1 u2 = some q := by
  intro ps
  induction ps with
  | nil =>
    intro k ps' k' h
    simp only [updateParticles, Option.some.injEq, Prod.mk.injEq] at h
    obtain ⟨h1, -⟩ := h
    subst h1
    simp
  | cons p ps ih =>
    intro k ps' k' h
    rw [updateParticles] at h
    split at h
    · exact absurd h (by simp)
    · rename_i q hq
      split at h
      · exact absurd h (by simp)
      · rename_i r qs k2 hqs
        simp only [Option.some.injEq, Prod.mk.injEq] at h
        obtain ⟨h1, -⟩ := h
        subst h1
        obtain ⟨hlen, hmem⟩ := ih (k + 2) qs k2 hqs
        refine ⟨by simp [hlen], ?_⟩
        intro q' hq'
        rcases List.mem_cons.1 hq' with rfl | hq'
        · exact ⟨p, List.mem_cons_self p ps, ρ k, ρ (k + 1), hq⟩
        · obtain ⟨p', hp', u1, u2, hupd⟩ := hmem q' hq'
          exact ⟨p', List.mem_cons_of_mem p hp', u1, u2, hupd⟩

lemma updateParticles_contained_rad {c : ℝ × ℝ} {L dt : ℝ} {ρ : ℕ → ℝ}
    {ps : List Particle} {k : ℕ} {ps' : List Particle} {k' : ℕ}
    (h : updateParticles c L dt ρ ps k = some (ps', k'))
    (hrad : ∀ p ∈ ps, p.radius ≤ L) :
    (∀ q ∈ ps', Real.sqrt ((q.x - c.1) ^ 2 + (q.y - c.2) ^ 2) + q.radius ≤ L) ∧
      ∀ q ∈ ps', q.radius ≤ L := by
  obtain ⟨-, hmem⟩ := updateParticles_some_spec c L dt ρ ps k ps' k' h
  constructor
  · intro q hq
    obtain ⟨p, hp, u1, u2, hupd⟩ := hmem q hq
    obtain ⟨-, hcont⟩ := Particle.update_some_spec hupd
    exact hcont (hrad p hp)
  · intro q hq
    obtain ⟨p, hp, u1, u2, hupd⟩ := hmem q hq
    obtain ⟨hr, -⟩ := Particle.update_some_spec hupd
    rw [hr]
    exact hrad p hp

/-! ### Inversion of `updateC` -/

namespace SpinnerNode

lemma updateC_leaf_some {dt : ℝ} {ρ : ℕ → ℝ} {d : NodeData} {ctr : ℝ × ℝ}
    {k : ℕ} {t' : SpinnerNode} {k' : ℕ}
    (h : updateC dt ρ (leaf d) ctr k = some (t', k')) :
    ∃ ps0 k0 ps1 k1 ps2 k2,
      updateParticles (get_lobe_center (stepData d ctr dt) 0) d.lobeRadius dt ρ
        (d.particles 0) k = some (ps0, k0) ∧
      updateParticles (get_lobe_center (stepData d ctr dt) 1) d.lobeRadius dt ρ
        (d.particles 1) k0 = some (ps1, k1) ∧
      updateParticles (get_lobe_center (stepData d ctr dt) 2) d.lobeRadius dt ρ
        (d.particles 2) k1 = some (ps2, k2) ∧
      t' = (leaf { stepData d ctr dt with particles := ![ps0, ps1, ps2] }).maxwells_demon ∧
      k' = k2 := by
  rw [updateC] at h
  split at h
  · exact absurd h (by simp)
  · rename_i r0 ps0 k0 h0
    split at h
    · exact absurd h (by simp)
    · rename_i r1 ps1 k1 h1
      split at h
      · exact absurd h (by simp)
      · rename_i r2 ps2 k2 h2
        simp only [Option.some.injEq, Prod.mk.injEq] at h
        obtain ⟨rfl, rfl⟩ := h
        exact ⟨ps0, k0, ps1, k1, ps2, k2, h0, h1, h2, rfl, rfl⟩

end SpinnerNode

lemma SpinnerNode.updateC_branch_some {dt : ℝ} {ρ : ℕ → ℝ} {d : NodeData}
    {c : Fin 3 → Fin 3 → SpinnerNode} {ctr : ℝ × ℝ} {k : ℕ}
    {t' : SpinnerNode} {k' : ℕ}
    (h : SpinnerNode.updateC dt ρ (SpinnerNode.branch d c) ctr k = some (t', k')) :
    ∃ ps0 k0 ps1 k1 ps2 k2 c00 k3 c01 k4 c02 k5 c10 k6 c11 k7 c12 k8 c20 k9 c21 k10 c22 k11,
      updateParticles (get_lobe_center (stepData d ctr dt) 0) d.lobeRadius dt ρ
        (d.particles 0) k = some (ps0, k0) ∧
      updateParticles (get_lobe_center (stepData d ctr dt) 1) d.lobeRadius dt ρ
        (d.particles 1) k0 = some (ps1, k1) ∧
      updateParticles (get_lobe_center (stepData d ctr dt) 2) d.lobeRadius dt ρ
        (d.particles 2) k1 = some (ps2, k2) ∧
      SpinnerNode.updateC dt ρ (c 0 0) (get_lobe_center (stepData d ctr dt) 0) k2
        = some (c00, k3) ∧
      SpinnerNode.updateC dt ρ (c 0 1) (get_lobe_center (stepData d ctr dt) 0) k3
        = some (c01, k4) ∧
      SpinnerNode.updateC dt ρ (c 0 2) (get_lobe_center (stepData d ctr dt) 0) k4
        = some (c02, k5) ∧
      SpinnerNode.updateC dt ρ (c 1 0) (get_lobe_center (stepData d ctr dt) 1) k5
        = some (c10, k6) ∧
      SpinnerNode.updateC dt ρ (c 1 1) (get_lobe_center (stepData d ctr dt) 1) k6
        = some (c11, k7) ∧
      SpinnerNode.updateC dt ρ (c 1 2) (get_lobe_center (stepData d ctr dt) 1) k7
        = some (c12, k8) ∧
      SpinnerNode.updateC dt ρ (c 2 0) (get_lobe_center (stepData d ctr dt) 2) k8
        = some (c20, k9) ∧
      SpinnerNode.updateC dt ρ (c 2 1) (get_lobe_center (stepData d ctr dt) 2) k9
        = some (c21, k10) ∧
      SpinnerNode.updateC dt ρ (c 2 2) (get_lobe_center (stepData d ctr dt) 2) k10
        = some (c22, k11) ∧
      t' = (SpinnerNode.branch { stepData d ctr dt with particles := ![ps0, ps1, ps2] }
        ![![c00, c01, c02], ![c10, c11, c12], ![c20, c21, c22]]).maxwells_demon ∧
      k' = k11 := by
  rw [SpinnerNode.updateC] at h
  split at h
  · exact absurd h (by simp)
  · rename_i r0 ps0 k0 h0
    split at h
    · exact absurd h (by simp)
    · rename_i r1 ps1 k1 h1
      split at h
      · exact absurd h (by simp)
      · rename_i r2 ps2 k2 h2
        split at h
        · exact absurd h (by simp)
        · rename_i r3 c00 k3 h3
          split at h
          · exact absurd h (by simp)
          · rename_i r4 c01 k4 h4
            split at h
            · exact absurd h (by simp)
            · rename_i r5 c02 k5 h5
              split at h
              · exact absurd h (by simp)
              · rename_i r6 c10 k6 h6
                split at h
                · exact absurd h (by simp)
                · rename_i r7 c11 k7 h7
                  split at h
                  · exact absurd h (by simp)
                  · rename_i r8 c12 k8 h8
                    split at h
                    · exact absurd h (by simp)
                    · rename_i r9 c20 k9 h9
                      split at h
                      · exact absurd h (by simp)
                      · rename_i r10 c21 k10 h10
                        split at h
                        · exact absurd h (by simp)
                        · rename_i r11 c22 k11 h11
                          simp only [Option.some.injEq, Prod.mk.injEq] at h
                          obtain ⟨rfl, rfl⟩ := h
                          exact ⟨ps0, k0, ps1, k1, ps2, k2, c00, k3, c01, k4, c02, k5,
                            c10, k6, c11, k7, c12, k8, c20, k9, c21, k10, c22, k11,
                            h0, h1, h2, h3, h4, h5, h6, h7, h8, h9, h10, h11, rfl, rfl⟩

lemma contained_update_data {d : NodeData} {ctr : ℝ × ℝ} {dt : ℝ} {ρ : ℕ → ℝ}
    {k k0 k1 k2 : ℕ} {ps0 ps1 ps2 : List Particle}
    (h0 : updateParticles (get_lobe_center (stepData d ctr dt) 0) d.lobeRadius dt ρ
      (d.particles 0) k = some (ps0, k0))
    (h1 : updateParticles (get_lobe_center (stepData d ctr dt) 1) d.lobeRadius dt ρ
      (d.particles 1) k0 = some (ps1, k1))
    (h2 : updateParticles (get_lobe_center (stepData d ctr dt) 2) d.lobeRadius dt ρ
      (d.particles 2) k1 = some (ps2, k2))
    (hrad : ∀ i : Fin 3, ∀ p ∈ d.particles i, p.radius ≤ d.lobeRadius) :
    contained { stepData d ctr dt with particles := ![ps0, ps1, ps2] } ∧
      ∀ i : Fin 3, ∀ p ∈ (![ps0, ps1, ps2] : Fin 3 → List Particle) i,
        p.radius ≤ d.lobeRadius := by
  have c0 := updateParticles_contained_rad h0 (hrad 0)
  have c1 := updateParticles_contained_rad h1 (hrad 1)
  have c2 := updateParticles_contained_rad h2 (hrad 2)
  constructor
  · intro i q hq
    fin_cases i
    · exact c0.1 q (by simpa using hq)
    · exact c1.1 q (by simpa using hq)
    · exact c2.1 q (by simpa using hq)
  · intro i q hq
    fin_cases i
    · exact c0.2 q (by simpa using hq)
    · exact c1.2 q (by simpa using hq)
    · exact c2.2 q (by simpa using hq)

namespace SpinnerNode

lemma updateC_inv_radOK (dt : ℝ) (ρ : ℕ → ℝ) :
    ∀ (t : SpinnerNode) (ctr : ℝ × ℝ) (k : ℕ) (t' : SpinnerNode) (k' : ℕ),
      t.radOK → updateC dt ρ t ctr k = some (t', k') → t'.inv ∧ t'.radOK := by
  intro t
  induction t with
  | leaf d =>
    intro ctr k t' k' hrad h
    obtain ⟨ps0, k0, ps1, k1, ps2, k2, h0, h1, h2, rfl, rfl⟩ := updateC_leaf_some h
    have hc := contained_update_data h0 h1 h2 hrad
    exact ⟨maxwells_demon_inv hc.1, maxwells_demon_radOK hc.2⟩
  | branch d c ih =>
    intro ctr k t' k' hrad h
    obtain ⟨ps0, k0, ps1, k1, ps2, k2, c00, k3, c01, k4, c02, k5, c10, k6, c11, k7,
      c12, k8, c20, k9, c21, k10, c22, k11,
      h0, h1, h2, h3, h4, h5, h6, h7, h8, h9, h10, h11, rfl, rfl⟩ :=
      updateC_branch_some h
    have hc := contained_update_data h0 h1 h2 hrad.1
    have i00 := ih 0 0 _ _ _ _ (hrad.2 0 0) h3
    have i01 := ih 0 1 _ _ _ _ (hrad.2 0 1) h4
    have i02 := ih 0 2 _ _ _ _ (hrad.2 0 2) h5
    have i10 := ih 1 0 _ _ _ _ (hrad.2 1 0) h6
    have i11 := ih 1 1 _ _ _ _ (hrad.2 1 1) h7
    have i12 := ih 1 2 _ _ _ _ (hrad.2 1 2) h8
    have i20 := ih 2 0 _ _ _ _ (hrad.2 2 0) h9
    have i21 := ih 2 1 _ _ _ _ (hrad.2 2 1) h10
    have i22 := ih 2 2 _ _ _ _ (hrad.2 2 2) h11
    constructor
    · apply maxwells_demon_inv
      refine ⟨hc.1, ?_⟩
      intro i j
      fin_cases i <;> fin_cases j <;> simp only [Matrix.cons_val_zero,
        Matrix.cons_val_one, Matrix.head_cons, Matrix.cons_val_two, Matrix.tail_cons]
      · exact i00.1
      · exact i01.1
      · exact i02.1
      · exact i10.1
      · exact i11.1
      · exact i12.1
      · exact i20.1
      · exact i21.1
      · exact i22.1
    · apply maxwells_demon_radOK
      refine ⟨hc.2, ?_⟩
      intro i j
      fin_cases i <;> fin_cases j <;> simp only [Matrix.cons_val_zero,
        Matrix.cons_val_one, Matrix.head_cons, Matrix.cons_val_two, Matrix.tail_cons]
      · exact i00.2
      · exact i01.2
      · exact i02.2
      · exact i10.2
      · exact i11.2
      · exact i12.2
      · exact i20.2
      · exact i21.2
      · exact i22.2

end SpinnerNode

namespace SpinnerNode

lemma updateC_total_particles (dt : ℝ) (ρ : ℕ → ℝ) :
    ∀ (t : SpinnerNode) (ctr : ℝ × ℝ) (k : ℕ) (t' : SpinnerNode) (k' : ℕ),
      updateC dt ρ t ctr k = some (t', k') → t'.total_particles = t.total_particles := by
  intro t
  induction t with
  | leaf d =>
    intro ctr k t' k' h
    obtain ⟨ps0, k0, ps1, k1, ps2, k2, h0, h1, h2, rfl, rfl⟩ := updateC_leaf_some h
    have l0 := (updateParticles_some_spec _ _ _ _ _ _ _ _ h0).1
    have l1 := (updateParticles_some_spec _ _ _ _ _ _ _ _ h1).1
    have l2 := (updateParticles_some_spec _ _ _ _ _ _ _ _ h2).1
    rw [maxwells_demon_total_particles]
    simp [total_particles, Fin.sum_univ_three, l0, l1, l2]
  | branch d c ih =>
    intro ctr k t' k' h
    obtain ⟨ps0, k0, ps1, k1, ps2, k2, c00, k3, c01, k4, c02, k5, c10, k6, c11, k7,
      c12, k8, c20, k9, c21, k10, c22, k11,
      h0, h1, h2, h3, h4, h5, h6, h7, h8, h9, h10, h11, rfl, rfl⟩ :=
      updateC_branch_some h
    have l0 := (updateParticles_some_spec _ _ _ _ _ _ _ _ h0).1
    have l1 := (updateParticles_some_spec _ _ _ _ _ _ _ _ h1).1
    have l2 := (updateParticles_some_spec _ _ _ _ _ _ _ _ h2).1
    have i00 := ih 0 0 _ _ _ _ h3
    have i01 := ih 0 1 _ _ _ _ h4
    have i02 := ih 0 2 _ _ _ _ h5
    have i10 := ih 1 0 _ _ _ _ h6
    have i11 := ih 1 1 _ _ _ _ h7
    have i12 := ih 1 2 _ _ _ _ h8
    have i20 := ih 2 0 _ _ _ _ h9
    have i21 := ih 2 1 _ _ _ _ h10
    have i22 := ih 2 2 _ _ _ _ h11
    rw [maxwells_demon_total_particles]
    simp [total_particles, Fin.sum_univ_three, l0, l1, l2,
      i00, i01, i02, i10, i11, i12, i20, i21, i22]

lemma update_inv_radOK {dt : ℝ} {ρ : ℕ → ℝ} {t : SpinnerNode} {k : ℕ}
    {t' : SpinnerNode} {k' : ℕ} (hrad : t.radOK)
    (h : t.update dt ρ k = some (t', k')) : t'.inv ∧ t'.radOK :=
  updateC_inv_radOK dt ρ t t.data.center k t' k' hrad h

lemma update_total_particles {dt : ℝ} {ρ : ℕ → ℝ} {t : SpinnerNode} {k : ℕ}
    {t' : SpinnerNode} {k' : ℕ} (h : t.update dt ρ k = some (t', k')) :
    t'.total_particles = t.total_particles :=
  updateC_total_particles dt ρ t t.data.center k t' k' h

end SpinnerNode

lemma iterateUpdate_inv {dt : ℝ} {ρ : ℕ → ℝ} :
    ∀ (n : ℕ) (t : SpinnerNode) (k : ℕ) (t' : SpinnerNode) (k' : ℕ),
      t.radOK → iterateUpdate dt ρ n t k = some (t', k') → 1 ≤ n → t'.inv := by
  intro n
  induction n with
  | zero => intro t k t' k' _ _ hn; omega
  | succ n ih =>
    intro t k t' k' hrad h _
    rw [iterateUpdate] at h
    split at h
    · exact absurd h (by simp)
    · rename_i r t1 k1 h1
      have h2 := SpinnerNode.update_inv_radOK hrad h1
      match n, h with
      | 0, h =>
        simp only [iterateUpdate, Option.some.injEq, Prod.mk.injEq] at h
        obtain ⟨rfl, -⟩ := h
        exact h2.1
      | m + 1, h => exact ih t1 k1 t' k' h2.2 h (by omega)

lemma iterateUpdate_total_particles {dt : ℝ} {ρ : ℕ → ℝ} :
    ∀ (n : ℕ) (t : SpinnerNode) (k : ℕ) (t' : SpinnerNode) (k' : ℕ),
      iterateUpdate dt ρ n t k = some (t', k') →
      t'.total_particles = t.total_particles := by
  intro n
  induction n with
  | zero =>
    intro t k t' k' h
    simp only [iterateUpdate, Option.some.injEq, Prod.mk.injEq] at h
    obtain ⟨rfl, -⟩ := h
    rfl
  | succ n ih =>
    intro t k t' k' h
    rw [iterateUpdate] at h
    split at h
    · exact absurd h (by simp)
    · rename_i r t1 k1 h1
      rw [ih t1 k1 t' k' h, SpinnerNode.update_total_particles h1]

/-! ### Counting lemmas for the constructed tree -/

lemma initParticles_length (ρ : ℕ → ℝ) (lc : ℝ × ℝ) (L : ℝ) :
    ∀ (n k : ℕ), (initParticles ρ lc L n k).1.length = n := by
  intro n
  induction n with
  | zero => intro k; rfl
  | succ n ih => intro k; simp [initParticles, ih]

lemma geom9_succ (n : ℕ) :
    ∑ j ∈ Finset.range (n + 1), 9 ^ j = 1 + 9 * ∑ j ∈ Finset.range n, 9 ^ j := by
  rw [Finset.sum_range_succ']
  simp only [pow_zero, pow_succ]
  rw [← Finset.sum_mul]
  ring

lemma build_counts (ρ : ℕ → ℝ) (numParticles : ℕ) :
    ∀ (m level : ℕ) (center : ℝ × ℝ) (armLength lobeRadius : ℝ)
      (maxLevel k : ℕ), maxLevel - level = m →
      (build ρ numParticles level center armLength lobeRadius maxLevel k).1.nodeCount
          = ∑ j ∈ Finset.range (m + 1), 9 ^ j ∧
        (build ρ numParticles level center armLength lobeRadius maxLevel k).1.total_particles
          = numParticles * 3 * ∑ j ∈ Finset.range (m + 1), 9 ^ j := by
  intro m
  induction m using Nat.strong_induction_on with
  | _ m ih =>
    intro level center armLength lobeRadius maxLevel k hm
    by_cases h : level < maxLevel
    · have hmpos : 1 ≤ m := by omega
      have hrec : ∀ (ctr : ℝ × ℝ) (k' : ℕ),
          (build ρ numParticles (level + 1) ctr (armLength * 0.4) (lobeRadius * 0.4)
            maxLevel k').1.nodeCount = ∑ j ∈ Finset.range (m - 1 + 1), 9 ^ j ∧
          (build ρ numParticles (level + 1) ctr (armLength * 0.4) (lobeRadius * 0.4)
            maxLevel k').1.total_particles
            = numParticles * 3 * ∑ j ∈ Finset.range (m - 1 + 1), 9 ^ j :=
        fun ctr k' => ih (m - 1) (by omega) (level + 1) ctr _ _ maxLevel k' (by omega)
      have hrec1 : ∀ (ctr : ℝ × ℝ) (k' : ℕ), _ := fun ctr k' => (hrec ctr k').1
      have hrec2 : ∀ (ctr : ℝ × ℝ) (k' : ℕ), _ := fun ctr k' => (hrec ctr k').2
      rw [build, dif_pos h]
      have hs : m - 1 + 1 = m := by omega
      rw [hs] at hrec1 hrec2
      constructor
      · simp only [SpinnerNode.nodeCount, Fin.sum_univ_three, Matrix.cons_val_zero,
          Matrix.cons_val_one, Matrix.head_cons, Matrix.cons_val_two, Matrix.tail_cons,
          hrec1]
        rw [show m = m - 1 + 1 by omega, geom9_succ (m - 1 + 1)]
        ring
      · simp only [SpinnerNode.total_particles, Fin.sum_univ_three, Matrix.cons_val_zero,
          Matrix.cons_val_one, Matrix.head_cons, Matrix.cons_val_two, Matrix.tail_cons,
          hrec2, initParticles_length]
        rw [show m = m - 1 + 1 by omega, geom9_succ (m - 1 + 1)]
        ring
    · have hm0 : m = 0 := by omega
      subst hm0
      rw [build, dif_neg h]
      constructor
      · simp [SpinnerNode.nodeCount]
      · simp [SpinnerNode.total_particles, Fin.sum_univ_three, initParticles_length]
        ring

/-! ### Demon-application counting and energy aggregation -/

namespace SpinnerNode

lemma demonApps_eq_nodeCount (t : SpinnerNode) : t.demonApps = t.nodeCount := by
  induction t with
  | leaf d => rfl
  | branch d c ih => simp [demonApps, nodeCount, ih]

lemma weightedApps_succ (t : SpinnerNode) :
    ∀ depth : ℕ, t.weightedApps (depth + 1) = t.weightedApps depth + t.demonApps := by
  induction t with
  | leaf d => intro depth; simp [weightedApps, demonApps]
  | branch d c ih =>
    intro depth
    simp only [weightedApps, demonApps, ih, Finset.sum_add_distrib]
    omega

lemma total_energy_eq_allParticles (t : SpinnerNode) :
    t.total_energy = ((t.allParticles).map Particle.kinetic_energy).sum := by
  induction t with
  | leaf d =>
    simp only [total_energy, allParticles, Fin.sum_univ_three, List.map_append,
      List.sum_append]
  | branch d c ih =>
    simp only [total_energy, allParticles, Fin.sum_univ_three, List.map_append,
      List.sum_append, ih]
    ring

lemma total_energy_nonneg (t : SpinnerNode) : 0 ≤ t.total_energy := by
  rw [total_energy_eq_allParticles]
  apply List.sum_nonneg
  intro a ha
  obtain ⟨p, -, rfl⟩ := List.mem_map.1 ha
  exact p.kinetic_energy_nonneg

end SpinnerNode

/-! ### The claims -/

/-- C1: for every particle in every lobe of every `SpinnerNode`, after a
complete tick (a full `SpinnerNode.update(dt)` call on the tree), the
particle's distance from its owning lobe's current center plus the
particle's radius is at most `lobe_radius`; this containment holds
after any number (at least one) of ticks.  The particle radii must fit
in their lobes (`radOK`, which the source constants guarantee and which
updates preserve), and the ticks must complete without the latent
division-by-zero fault (`some`). -/
theorem C1_containment (dt : ℝ) (ρ : ℕ → ℝ) (n : ℕ) (t : SpinnerNode) (k : ℕ)
    (t' : SpinnerNode) (k' : ℕ) (hrad : t.radOK)
    (h : iterateUpdate dt ρ n t k = some (t', k')) (hn : 1 ≤ n) : t'.inv :=
  iterateUpdate_inv n t k t' k' hrad h hn

/-- Witness for C1 at a concrete one-node tree. -/
theorem C1_containment_witness :
    ∃ (t' : SpinnerNode) (k' : ℕ),
      iterateUpdate 1 (fun _ => 0) 1
        (SpinnerNode.leaf ⟨0, (0, 0), 0, 1, 0, fun _ => [], 0⟩) 0 = some (t', k') ∧
      t'.inv := by
  have h2 : ∃ r, iterateUpdate 1 (fun _ => 0) 1
      (SpinnerNode.leaf ⟨0, (0, 0), 0, 1, 0, fun _ => [], 0⟩) 0 = some r := ⟨_, rfl⟩
  obtain ⟨⟨t', k'⟩, h2⟩ := h2
  refine ⟨t', k', h2, C1_containment 1 (fun _ => 0) 1 _ 0 t' k' ?_ h2 (le_refl 1)⟩
  intro i p hp
  simp at hp

/-- C2: immediately after `maxwells_demon()` runs, every particle of
lobe `i` with kinetic energy above `0.05` sits at `x ≥ lobe_center.x`
and every particle with kinetic energy at most `0.05` at
`x ≤ lobe_center.x`, the lobe center being computed from the node's
current `theta`. -/
theorem C2_demon_partition (t : SpinnerNode) (i : Fin 3) (q : Particle)
    (hq : q ∈ (t.maxwells_demon.data).particles i) :
    (q.kinetic_energy > 0.05 → (get_lobe_center t.data i).1 ≤ q.x) ∧
      (q.kinetic_energy ≤ 0.05 → q.x ≤ (get_lobe_center t.data i).1) := by
  have hdata : t.maxwells_demon.data = demonData t.data := by cases t <;> rfl
  rw [hdata, demonData_particles] at hq
  obtain ⟨p, hp, rfl⟩ := List.mem_map.1 hq
  constructor
  · intro hE
    rw [demonParticle_ke] at hE
    rw [demonParticle_x_hot _ hE]
    have := abs_nonneg (p.x - (get_lobe_center t.data i).1)
    linarith
  · intro hE
    rw [demonParticle_ke] at hE
    rw [demonParticle_x_cold _ (not_lt.2 hE)]
    have := abs_nonneg (p.x - (get_lobe_center t.data i).1)
    linarith

/-- Witness for C2 at a concrete one-node, one-particle tree. -/
theorem C2_demon_partition_witness :
    ∃ q : Particle,
      q ∈ ((SpinnerNode.leaf
        ⟨0, (0, 0), 0, 1, 0, fun _ => [⟨1, 0, 1, 0, 1⟩], 0⟩).maxwells_demon.data).particles 0 ∧
      (get_lobe_center (SpinnerNode.leaf
        ⟨0, (0, 0), 0, 1, 0, fun _ => [⟨1, 0, 1, 0, 1⟩], 0⟩).data 0).1 ≤ q.x := by
  have hq : demonParticle
      (get_lobe_center (⟨0, (0, 0), 0, 1, 0, fun _ => [⟨1, 0, 1, 0, 1⟩], 0⟩ : NodeData) 0).1
        (⟨1, 0, 1, 0, 1⟩ : Particle) ∈
      ((SpinnerNode.leaf
        ⟨0, (0, 0), 0, 1, 0, fun _ => [⟨1, 0, 1, 0, 1⟩], 0⟩).maxwells_demon.data).particles 0 :=
    List.mem_map_of_mem _ (by simp)
  have hE : (demonParticle
      (get_lobe_center (⟨0, (0, 0), 0, 1, 0, fun _ => [⟨1, 0, 1, 0, 1⟩], 0⟩ : NodeData) 0).1
        (⟨1, 0, 1, 0, 1⟩ : Particle)).kinetic_energy > 0.05 := by
    rw [demonParticle_ke]
    norm_num [Particle.kinetic_energy]
  exact ⟨_, hq, (C2_demon_partition _ 0 _ hq).1 hE⟩

/-- A minimal node data record used for concrete counterexample trees. -/
def d0 : NodeData := ⟨0, (0, 0), 0, 1, 0, fun _ => [], 0⟩

/-- Counterexample to C3: on a two-level tree (one branch node with
nine leaf children), one tick performs 19 demon sorts of particle
groups, not one per node (10): each child is sorted once by its own
`update` and once more by the parent's final recursive
`maxwells_demon()` call. -/
theorem C3_demon_once_cex :
    (SpinnerNode.branch d0 (fun _ _ => SpinnerNode.leaf d0)).updateDemonApps = 19 ∧
      (SpinnerNode.branch d0 (fun _ _ => SpinnerNode.leaf d0)).nodeCount = 10 ∧
      (SpinnerNode.branch d0 (fun _ _ => SpinnerNode.leaf d0)).updateDemonApps ≠
        (SpinnerNode.branch d0 (fun _ _ => SpinnerNode.leaf d0)).nodeCount := by
  refine ⟨?_, ?_, ?_⟩ <;>
    simp [SpinnerNode.updateDemonApps, SpinnerNode.demonApps, SpinnerNode.nodeCount,
      Fin.sum_univ_three]

/-- C3 amended: during one tick each node applies the demon sort to its
own three particle groups at the end of its own `update`, but
`maxwells_demon()` is recursive, so that final call re-sorts the whole
subtree; a node at depth `d` below the tree's root therefore has its
groups sorted `d + 1` times per tick, and one `maxwells_demon()` call
visits every node of its subtree exactly once. -/
theorem C3_demon_apps_amended (t : SpinnerNode) :
    t.demonApps = t.nodeCount ∧ t.updateDemonApps = t.weightedApps 0 := by
  refine ⟨t.demonApps_eq_nodeCount, ?_⟩
  have hws : ∀ u : SpinnerNode, u.weightedApps 1 = u.weightedApps 0 + u.demonApps :=
    fun u => by simpa using u.weightedApps_succ 0
  induction t with
  | leaf d => rfl
  | branch d c ih =>
    simp only [SpinnerNode.updateDemonApps, SpinnerNode.weightedApps,
      SpinnerNode.demonApps, ih, zero_add, hws, Finset.sum_add_distrib]
    omega

/-- C4: `Particle.update(center, lobe_radius, dt)` never hits the
division by zero: whenever the particle's radius does not exceed
`lobe_radius` the call completes (`some`), in particular when the
advanced position coincides exactly with the lobe center
(distance `0`), because the reflection branch then requires
`0 + radius > lobe_radius`. -/
theorem C4_no_division_fault (p : Particle) (c : ℝ × ℝ) (L dt u1 u2 : ℝ)
    (h : p.radius ≤ L) : ∃ q, p.update c L dt u1 u2 = some q := by
  classical
  simp only [Particle.update]
  set dist := Real.sqrt ((p.x + p.vx * dt - c.1) ^ 2 + (p.y + p.vy * dt - c.2) ^ 2)
    with hdist
  by_cases hb : dist + p.radius > L
  · have h0 : ¬ dist = 0 := by
      intro h0
      rw [h0] at hb
      simp at hb
      linarith
    rw [if_pos hb, if_neg h0]
    exact ⟨_, rfl⟩
  · rw [if_neg hb]
    exact ⟨_, rfl⟩

/-- Witness for C4: a particle sitting exactly at the lobe center. -/
theorem C4_no_division_fault_witness :
    ∃ q, Particle.update ⟨0, 0, 0, 0, 1⟩ (0, 0) 2 1 0 0 = some q :=
  C4_no_division_fault ⟨0, 0, 0, 0, 1⟩ (0, 0) 2 1 0 0 (by norm_num)

/-- C5: in `Particle.update(center, lobe_radius, dt)` the position
first advances by `velocity * dt`; if the new distance from the center
plus the radius exceeds `lobe_radius`, the velocity is reflected about
the outward unit normal `n` (`v' = v - 2(v.n)n`, so the post-reflection
normal component is the negation of the pre-reflection one) and the
position is clamped to exactly `lobe_radius - radius` from the center
along `n`; otherwise the collision check leaves the advanced position
and the velocity unchanged.  The random fluctuation
`(u - 0.5) * 0.01` is added to each velocity component after the check
in both cases, and the reflection case needs `dist ≠ 0` (else the
source faults, claim C4). -/
theorem C5_update_characterization (p : Particle) (c : ℝ × ℝ)
    (L dt u1 u2 dx dy dist nx ny dot : ℝ)
    (hdx : dx = p.x + p.vx * dt - c.1) (hdy : dy = p.y + p.vy * dt - c.2)
    (hdist : dist = Real.sqrt (dx ^ 2 + dy ^ 2))
    (hnx : nx = dx / dist) (hny : ny = dy / dist)
    (hdot : dot = p.vx * nx + p.vy * ny) :
    (dist + p.radius ≤ L →
      p.update c L dt u1 u2 = some
        ⟨p.x + p.vx * dt, p.y + p.vy * dt,
         p.vx + (u1 - 0.5) * 0.01, p.vy + (u2 - 0.5) * 0.01, p.radius⟩) ∧
    (L < dist + p.radius → dist ≠ 0 →
      p.update c L dt u1 u2 = some
        ⟨c.1 + nx * (L - p.radius), c.2 + ny * (L - p.radius),
         p.vx - 2 * dot * nx + (u1 - 0.5) * 0.01,
         p.vy - 2 * dot * ny + (u2 - 0.5) * 0.01, p.radius⟩ ∧
      (p.vx - 2 * dot * nx) * nx + (p.vy - 2 * dot * ny) * ny = -dot ∧
      (p.radius ≤ L →
        Real.sqrt ((c.1 + nx * (L - p.radius) - c.1) ^ 2 +
          (c.2 + ny * (L - p.radius) - c.2) ^ 2) = L - p.radius)) := by
  classical
  subst hdx hdy hdist
  constructor
  · intro hle
    simp only [Particle.update]
    rw [if_neg (not_lt.2 hle)]
  · intro hgt h0
    have hsq : Real.sqrt ((p.x + p.vx * dt - c.1) ^ 2 + (p.y + p.vy * dt - c.2) ^ 2) ^ 2
        = (p.x + p.vx * dt - c.1) ^ 2 + (p.y + p.vy * dt - c.2) ^ 2 :=
      Real.sq_sqrt (by positivity)
    have hnn : nx ^ 2 + ny ^ 2 = 1 := by
      rw [hnx, hny, div_pow, div_pow, div_add_div_same, hsq]
      exact div_self (by rw [← hsq]; exact pow_ne_zero 2 h0)
    refine ⟨?_, ?_, ?_⟩
    · simp only [Particle.update]
      rw [if_pos hgt, if_neg h0, hdot, hnx, hny]
    · calc (p.vx - 2 * dot * nx) * nx + (p.vy - 2 * dot * ny) * ny
          = (p.vx * nx + p.vy * ny) - 2 * dot * (nx ^ 2 + ny ^ 2) := by ring
        _ = dot - 2 * dot * 1 := by rw [← hdot, hnn]
        _ = -dot := by ring
    · intro hrL
      have hval : (c.1 + nx * (L - p.radius) - c.1) ^ 2 +
          (c.2 + ny * (L - p.radius) - c.2) ^ 2 = (L - p.radius) ^ 2 := by
        calc (c.1 + nx * (L - p.radius) - c.1) ^ 2 +
            (c.2 + ny * (L - p.radius) - c.2) ^ 2
            = (nx ^ 2 + ny ^ 2) * (L - p.radius) ^ 2 := by ring
          _ = (L - p.radius) ^ 2 := by rw [hnn]; ring
      rw [hval, Real.sqrt_sq (by linarith)]

/-- Witness for C5: a 3-4-5 particle at rest beyond the boundary is
reflected and clamped to distance `lobe_radius - radius` from the
center. -/
theorem C5_update_characterization_witness :
    ∃ q : Particle, Particle.update ⟨3, 4, 0, 0, 1⟩ (0, 0) 4 1 0.5 0.5 = some q ∧
      Real.sqrt ((q.x - ((0 : ℝ), (0 : ℝ)).1) ^ 2 + (q.y - ((0 : ℝ), (0 : ℝ)).2) ^ 2)
        = 4 - 1 := by
  have h5 : Real.sqrt ((3 : ℝ) ^ 2 + 4 ^ 2) = 5 := by
    rw [show (3 : ℝ) ^ 2 + 4 ^ 2 = (5 : ℝ) ^ 2 by norm_num]
    exact Real.sqrt_sq (by norm_num)
  have h := (C5_update_characterization ⟨3, 4, 0, 0, 1⟩ (0, 0) 4 1 0.5 0.5
      3 4 5 (3 / 5) (4 / 5) 0 (by norm_num) (by norm_num) h5.symm (by norm_num)
      (by norm_num) (by norm_num)).2 (by norm_num) (by norm_num)
  exact ⟨_, h.1, h.2.2 (by norm_num)⟩

/-- C6: a tree constructed with `max_level = L` (from level `0`)
contains exactly `Σ_{k=0..L} 9^k` nodes, and after any number of
completed `update(dt)` calls `total_particles()` returns
`(particles_per_lobe * 3) * Σ_{k=0..L} 9^k` — the construction value,
unchanged by ticking. -/
theorem C6_tree_shape (ρ ρ' : ℕ → ℝ) (numParticles : ℕ) (center : ℝ × ℝ)
    (armLength lobeRadius : ℝ) (L k : ℕ) (dt : ℝ) (n k0 : ℕ)
    (t' : SpinnerNode) (k' : ℕ)
    (h : iterateUpdate dt ρ' n
      (build ρ numParticles 0 center armLength lobeRadius L k).1 k0 = some (t', k')) :
    (build ρ numParticles 0 center armLength lobeRadius L k).1.nodeCount
        = ∑ j ∈ Finset.range (L + 1), 9 ^ j ∧
      t'.total_particles = numParticles * 3 * ∑ j ∈ Finset.range (L + 1), 9 ^ j := by
  have hb := build_counts ρ numParticles L 0 center armLength lobeRadius L k (by omega)
  exact ⟨hb.1, by rw [iterateUpdate_total_particles n _ k0 t' k' h, hb.2]⟩

/-- Witness for C6 with `max_level = 0`, no particles, one tick. -/
theorem C6_tree_shape_witness :
    ∃ (t' : SpinnerNode) (k' : ℕ),
      iterateUpdate 1 (fun _ => 0) 1
        (build (fun _ => 0) 0 0 ((0 : ℝ), (0 : ℝ)) 0 1 0 0).1 0 = some (t', k') ∧
      (build (fun _ => 0) 0 0 ((0 : ℝ), (0 : ℝ)) 0 1 0 0).1.nodeCount
          = ∑ j ∈ Finset.range 1, 9 ^ j ∧
      t'.total_particles = 0 * 3 * ∑ j ∈ Finset.range 1, 9 ^ j := by
  have hbuild : build (fun _ => 0) 0 0 ((0 : ℝ), (0 : ℝ)) 0 1 0 0
      = (SpinnerNode.leaf ⟨0, ((0 : ℝ), (0 : ℝ)), 0, 1, 0, ![[], [], []], 0⟩, 0) := by
    rw [build, dif_neg (by omega)]
    rfl
  have h2 : ∃ r, iterateUpdate 1 (fun _ => 0) 1
      (build (fun _ => 0) 0 0 ((0 : ℝ), (0 : ℝ)) 0 1 0 0).1 0 = some r := by
    rw [hbuild]
    exact ⟨_, rfl⟩
  obtain ⟨⟨t', k'⟩, h2⟩ := h2
  have hc := C6_tree_shape (fun _ => 0) (fun _ => 0) 0 ((0 : ℝ), (0 : ℝ)) 0 1 0 0 1 1 0
    t' k' h2
  exact ⟨t', k', h2, hc.1, hc.2⟩

/-- C7: `total_energy()` is exactly the sum of `0.5*(vx^2 + vy^2)` over
all particles of the node and its descendants, every summand is
nonnegative, and so is the total. -/
theorem C7_total_energy (t : SpinnerNode) :
    t.total_energy = ((t.allParticles).map Particle.kinetic_energy).sum ∧
      (∀ p : Particle, 0 ≤ p.kinetic_energy) ∧ 0 ≤ t.total_energy :=
  ⟨t.total_energy_eq_allParticles, fun p => p.kinetic_energy_nonneg,
    t.total_energy_nonneg⟩

/-- C8: the audio mapping sends a particle of kinetic energy `E` in a
lobe of base frequency `f0` and pan `p` to frequency `f0 + E*300` and
volume `min(1.0, E*8)`, and the synthesized stereo waveform's left and
right channels are the mono sine waveform scaled by `1 - p` and `p`;
in particular `E = 0.1` with `f0 = 220` gives `250` Hz at volume
`0.8`. -/
theorem C8_audio_mapping :
    (∀ frequency volume pan : ℝ,
        (generate_tone frequency volume pan).map Prod.fst =
          (List.range n_samples).map
            (fun i => mono_wave frequency volume (sampleTime i) * (1 - pan)) ∧
        (generate_tone frequency volume pan).map Prod.snd =
          (List.range n_samples).map
            (fun i => mono_wave frequency volume (sampleTime i) * pan)) ∧
    (∀ (i : Fin 3) (p : Particle),
        (toneParams i p).1 = BASE_FREQUENCIES i + p.kinetic_energy * 300 ∧
        (toneParams i p).2.1 = min 1 (p.kinetic_energy * 8)) ∧
    (∀ p : Particle, p.kinetic_energy = 0.1 →
        (toneParams 0 p).1 = 250 ∧ (toneParams 0 p).2.1 = 0.8) := by
  refine ⟨fun frequency volume pan => ⟨?_, ?_⟩, fun i p => ⟨rfl, rfl⟩, fun p hE => ⟨?_, ?_⟩⟩
  · simp [generate_tone, List.map_map]
  · simp [generate_tone, List.map_map]
  · show BASE_FREQUENCIES 0 + p.kinetic_energy * 300 = 250
    rw [hE]
    norm_num [BASE_FREQUENCIES]
  · show min 1 (p.kinetic_energy * 8) = 0.8
    rw [hE]
    norm_num

/-- Witness for C8: a particle with velocity `(0.4, 0.2)` has kinetic
energy exactly `0.1`. -/
theorem C8_audio_mapping_witness :
    (⟨0, 0, 0.4, 0.2, 1⟩ : Particle).kinetic_energy = 0.1 ∧
      (toneParams 0 ⟨0, 0, 0.4, 0.2, 1⟩).1 = 250 ∧
      (toneParams 0 ⟨0, 0, 0.4, 0.2, 1⟩).2.1 = 0.8 := by
  have hE : (⟨0, 0, 0.4, 0.2, 1⟩ : Particle).kinetic_energy = 0.1 := by
    norm_num [Particle.kinetic_energy]
  exact ⟨hE, (C8_audio_mapping.2.2 _ hE).1, (C8_audio_mapping.2.2 _ hE).2⟩

/-- C9: `maxwells_demon()` only moves each particle's x-coordinate,
preserving `|x - lobe_center.x|`; `y`, `vx`, `vy`, the radius, the
kinetic energy and the distance to the lobe center are unchanged at
every node, and so is `total_energy()`. -/
theorem C9_demon_frame (t : SpinnerNode) :
    SpinnerNode.demonFrame t t.maxwells_demon ∧
      t.maxwells_demon.total_energy = t.total_energy :=
  ⟨t.demonFrame_maxwells_demon, t.maxwells_demon_total_energy⟩

/-- C10: `maxwells_demon()` is idempotent — applied twice in
succession (nothing moving in between) it yields exactly the state
after one application. -/
theorem C10_demon_idempotent (t : SpinnerNode) :
    t.maxwells_demon.maxwells_demon = t.maxwells_demon :=
  t.maxwells_demon_idem

/-! ### The constructor establishes the radii bound assumed by C1 -/

lemma initParticles_radius_le (ρ : ℕ → ℝ) (hρ : ∀ j, 0 ≤ ρ j ∧ ρ j ≤ 1)
    (lc : ℝ × ℝ) (L : ℝ) :
    ∀ (n k : ℕ), ∀ p ∈ (initParticles ρ lc L n k).1, p.radius ≤ 4 := by
  intro n
  induction n with
  | zero => intro k p hp; simp [initParticles] at hp
  | succ n ih =>
    intro k p hp
    simp only [initParticles, List.mem_cons] at hp
    rcases hp with rfl | hp
    · show 2 + ρ (k + 2) * 2 ≤ 4
      have := (hρ (k + 2)).2
      linarith
    · exact ih (k + 3) p hp

/-- Radii created by the constructor are at most `4`, so the whole tree
satisfies `radOK` whenever even the deepest lobe radius
`lobe_radius * 0.4 ^ (max_level - level)` is at least `4`. -/
lemma build_radOK (ρ : ℕ → ℝ) (np : ℕ) (hρ : ∀ j, 0 ≤ ρ j ∧ ρ j ≤ 1) :
    ∀ (m level : ℕ) (center : ℝ × ℝ) (armLength lobeRadius : ℝ)
      (maxLevel k : ℕ), maxLevel - level = m →
      4 ≤ lobeRadius * (0.4 : ℝ) ^ m →
      (build ρ np level center armLength lobeRadius maxLevel k).1.radOK := by
  intro m
  induction m using Nat.strong_induction_on with
  | _ m ih =>
    intro level center armLength lobeRadius maxLevel k hm hL
    have hpow : (0 : ℝ) < (0.4 : ℝ) ^ m := by positivity
    have hpow1 : ((0.4 : ℝ)) ^ m ≤ 1 := pow_le_one₀ (by norm_num) (by norm_num)
    have hLpos : 0 < lobeRadius := by nlinarith
    have hLge : 4 ≤ lobeRadius := by nlinarith
    by_cases h : level < maxLevel
    · rw [build, dif_pos h]
      have hstep : (4 : ℝ) ≤ lobeRadius * 0.4 * 0.4 ^ (m - 1) := by
        have h1 : m - 1 + 1 = m := by omega
        have hmm : lobeRadius * 0.4 * 0.4 ^ (m - 1) = lobeRadius * 0.4 ^ m := by
          calc lobeRadius * 0.4 * 0.4 ^ (m - 1)
              = lobeRadius * 0.4 ^ (m - 1 + 1) := by ring
            _ = lobeRadius * 0.4 ^ m := by rw [h1]
        rw [hmm]
        exact hL
      constructor
      · intro i p hp
        have hp4 : p.radius ≤ 4 := by
          fin_cases i
          · exact initParticles_radius_le ρ hρ _ _ _ _ p (by simpa using hp)
          · exact initParticles_radius_le ρ hρ _ _ _ _ p (by simpa using hp)
          · exact initParticles_radius_le ρ hρ _ _ _ _ p (by simpa using hp)
        linarith
      · intro i j
        fin_cases i <;> fin_cases j <;>
          simp only [Matrix.cons_val_zero, Matrix.cons_val_one, Matrix.head_cons,
            Matrix.cons_val_two, Matrix.tail_cons] <;>
          exact ih (m - 1) (by omega) (level + 1) _ _ _ maxLevel _ (by omega) hstep
    · rw [build, dif_neg h]
      intro i p hp
      have hp4 : p.radius ≤ 4 := by
        fin_cases i
        · exact initParticles_radius_le ρ hρ _ _ _ _ p (by simpa using hp)
        · exact initParticles_radius_le ρ hρ _ _ _ _ p (by simpa using hp)
        · exact initParticles_radius_le ρ hρ _ _ _ _ p (by simpa using hp)
      linarith

/-- With the source constants of `isolated.py`
(`LOBE_RADIUS = 110`, `ARM_LENGTH = 170`, `PARTICLES_PER_LOBE = 6`,
`MAX_LEVEL = 2`) and draws of `random.random()` in `[0, 1]`, the
constructed tree satisfies the radii bound `radOK` that claim C1
assumes: the deepest lobe radius is `110 * 0.4^2 = 17.6 ≥ 4`. -/
lemma build_radOK_source_constants (ρ : ℕ → ℝ) (hρ : ∀ j, 0 ≤ ρ j ∧ ρ j ≤ 1)
    (center : ℝ × ℝ) (k : ℕ) :
    (build ρ 6 0 center 170 110 2 k).1.radOK :=
  build_radOK ρ 6 hρ 2 0 center 170 110 2 k (by omega) (by norm_num)
